import Mathlib

/-!
Shallow embedding of the content-acquisition pipeline of the
`tampermonkey-lurl-download` repository (server side, `src/server/lurl.js`,
`src/server/_lurl-retry.js`).

Strings are modelled as Lean `String` / `List Char`; JavaScript's UTF-16
is irrelevant here because every operation below is per-code-point and the
only length-sensitive operation (`substring(0,200)`) runs after all
astral-plane characters have been filtered out.  Machine integers are `Nat`.
The filesystem is modelled explicitly (`String → Bool` presence maps or a
small state type), and `fetch` outcomes are supplied by an oracle function,
one invocation per issued HTTP GET.
-/

namespace Lurl

/-! ### Character-list helpers (JS string primitives) -/

/-- Test whether `pat` is a prefix of `l` (JS `String.startsWith` on char lists). -/
def startsWithList : List Char → List Char → Bool
  | [], _ => true
  | _ :: _, [] => false
  | p :: ps, c :: cs => decide (p = c) && startsWithList ps cs

/-- Split at the first occurrence of `pat`, returning the part before and the
part after it (JS `indexOf`-style search); `none` when `pat` does not occur. -/
def splitFirstSub (pat : List Char) : List Char → Option (List Char × List Char)
  | [] => if pat = [] then some ([], []) else none
  | c :: rest =>
    if startsWithList pat (c :: rest) then some ([], (c :: rest).drop pat.length)
    else (splitFirstSub pat rest).map (fun p => (c :: p.1, p.2))

/-- Test whether `pat` occurs anywhere in `l` (JS `String.includes`). -/
def containsSub (pat l : List Char) : Bool :=
  (splitFirstSub pat l).isSome

/-- Split on a separator character (JS `String.split` with a one-char separator). -/
def splitOnCharList (sep : Char) : List Char → List (List Char)
  | [] => [[]]
  | c :: rest =>
    let r := splitOnCharList sep rest
    if c = sep then [] :: r
    else
      match r with
      | h :: t => (c :: h) :: t
      | [] => [[c]]

/-! ### `sanitizeFilename` (src/server/lurl.js lines 716-727) -/

/-- Characters replaced by `_` in the first `replace`: `/ \ : * ? " < > |`. -/
def isForbiddenChar (c : Char) : Bool :=
  decide (c.toNat = 47 ∨ c.toNat = 92 ∨ c.toNat = 58 ∨ c.toNat = 42 ∨
    c.toNat = 63 ∨ c.toNat = 34 ∨ c.toNat = 60 ∨ c.toNat = 62 ∨ c.toNat = 124)

/-- JavaScript `\s` character class (whitespace as matched by `/\s+/`). -/
def isJsSpace (c : Char) : Bool :=
  decide (c.toNat = 9 ∨ c.toNat = 10 ∨ c.toNat = 11 ∨ c.toNat = 12 ∨
    c.toNat = 13 ∨ c.toNat = 32 ∨ c.toNat = 0xa0 ∨ c.toNat = 0x1680 ∨
    (0x2000 ≤ c.toNat ∧ c.toNat ≤ 0x200a) ∨ c.toNat = 0x2028 ∨
    c.toNat = 0x2029 ∨ c.toNat = 0x202f ∨ c.toNat = 0x205f ∨
    c.toNat = 0x3000 ∨ c.toNat = 0xfeff)

/-- Code points removed by the emoji `replace` (`\u{1F000}-\u{1FFFF}`,
`\u{2600}-\u{27BF}`, `\u{FE00}-\u{FE0F}`, `\u{1F900}-\u{1F9FF}`). -/
def isEmojiChar (c : Char) : Bool :=
  decide ((0x1F000 ≤ c.toNat ∧ c.toNat ≤ 0x1FFFF) ∨
    (0x2600 ≤ c.toNat ∧ c.toNat ≤ 0x27BF) ∨
    (0xFE00 ≤ c.toNat ∧ c.toNat ≤ 0xFE0F) ∨
    (0x1F900 ≤ c.toNat ∧ c.toNat ≤ 0x1F9FF))

/-- Characters kept by `[^\w一-鿿㐀-䶿._-]` → `''`:
ASCII word characters, two CJK blocks, dot, underscore (in `\w`), hyphen. -/
def isAllowedChar (c : Char) : Bool :=
  decide ((48 ≤ c.toNat ∧ c.toNat ≤ 57) ∨ (65 ≤ c.toNat ∧ c.toNat ≤ 90) ∨
    (97 ≤ c.toNat ∧ c.toNat ≤ 122) ∨ c.toNat = 95 ∨
    (0x4e00 ≤ c.toNat ∧ c.toNat ≤ 0x9fff) ∨
    (0x3400 ≤ c.toNat ∧ c.toNat ≤ 0x4dbf) ∨
    c.toNat = 46 ∨ c.toNat = 45)

/-- Replace each maximal run of JS whitespace by a single `_` (`/\s+/g → '_'`):
a whitespace character is dropped while the run continues and becomes `_`
where the run ends. -/
def collapseSpaces : List Char → List Char
  | [] => []
  | [c] => if isJsSpace c then ['_'] else [c]
  | c :: d :: rest =>
    if isJsSpace c then
      if isJsSpace d then collapseSpaces (d :: rest)
      else '_' :: collapseSpaces (d :: rest)
    else c :: collapseSpaces (d :: rest)

/-- Replace each maximal run of `_` by a single `_` (`/_+/g → '_'`). -/
def collapseUnderscores : List Char → List Char
  | [] => []
  | [c] => [c]
  | c :: d :: rest =>
    if c = '_' ∧ d = '_' then collapseUnderscores (d :: rest)
    else c :: collapseUnderscores (d :: rest)

/-- Remove one leading and one trailing underscore (`/^_|_$/g → ''`). -/
def trimUnderscore (l : List Char) : List Char :=
  let l1 := if l.head? = some '_' then l.tail else l
  if l1.getLast? = some '_' then l1.dropLast else l1

/-- The sanitization pipeline of `sanitizeFilename` before the `|| 'untitled'`
fallback: the six chained `replace` calls followed by `substring(0, 200)`. -/
def sanitizePipeline (s : String) : List Char :=
  let l1 := s.data.map (fun c => if isForbiddenChar c then '_' else c)
  let l2 := collapseSpaces l1
  let l3 := l2.filter (fun c => !isEmojiChar c)
  let l4 := l3.filter isAllowedChar
  let l5 := collapseUnderscores l4
  let l6 := trimUnderscore l5
  l6.take 200

/-- `sanitizeFilename` from src/server/lurl.js lines 716-727. -/
def sanitizeFilename (s : String) : String :=
  let l7 := sanitizePipeline s
  if l7.isEmpty then "untitled" else String.mk l7

/-! ### Properties of `sanitizeFilename` -/

theorem mem_collapseSpaces {c : Char} :
    ∀ {l : List Char}, c ∈ collapseSpaces l → c = '_' ∨ c ∈ l := by
  intro l
  induction l using collapseSpaces.induct with
  | case1 => intro h; simp [collapseSpaces] at h
  | case2 d hd =>
    intro h
    rw [collapseSpaces, if_pos hd] at h
    exact Or.inl (by simpa using h)
  | case3 d hd =>
    intro h
    rw [collapseSpaces, if_neg hd] at h
    exact Or.inr h
  | case4 d e rest hd he ih =>
    intro h
    rw [collapseSpaces, if_pos hd, if_pos he] at h
    rcases ih h with h3 | h4
    · exact Or.inl h3
    · exact Or.inr (List.mem_cons_of_mem _ h4)
  | case5 d e rest hd he ih =>
    intro h
    rw [collapseSpaces, if_pos hd, if_neg he] at h
    rcases List.mem_cons.mp h with h1 | h2
    · exact Or.inl h1
    · rcases ih h2 with h3 | h4
      · exact Or.inl h3
      · exact Or.inr (List.mem_cons_of_mem _ h4)
  | case6 d e rest hd ih =>
    intro h
    rw [collapseSpaces, if_neg hd] at h
    rcases List.mem_cons.mp h with h1 | h2
    · exact Or.inr (h1 ▸ List.mem_cons_self _ _)
    · rcases ih h2 with h3 | h4
      · exact Or.inl h3
      · exact Or.inr (List.mem_cons_of_mem _ h4)

theorem mem_collapseUnderscores {c : Char} :
    ∀ {l : List Char}, c ∈ collapseUnderscores l → c = '_' ∨ c ∈ l := by
  intro l
  induction l using collapseUnderscores.induct with
  | case1 => intro h; simp [collapseUnderscores] at h
  | case2 d =>
    intro h
    rw [collapseUnderscores] at h
    exact Or.inr h
  | case3 d e rest hde ih =>
    intro h
    rw [collapseUnderscores, if_pos hde] at h
    rcases ih h with h3 | h4
    · exact Or.inl h3
    · exact Or.inr (List.mem_cons_of_mem _ h4)
  | case4 d e rest hde ih =>
    intro h
    rw [collapseUnderscores, if_neg hde] at h
    rcases List.mem_cons.mp h with h1 | h2
    · exact Or.inr (h1 ▸ List.mem_cons_self _ _)
    · rcases ih h2 with h3 | h4
      · exact Or.inl h3
      · exact Or.inr (List.mem_cons_of_mem _ h4)

theorem mem_trimUnderscore {c : Char} {l : List Char} (h : c ∈ trimUnderscore l) :
    c ∈ l := by
  have step : ∀ m : List Char,
      c ∈ (if m.getLast? = some '_' then m.dropLast else m) → c ∈ m := by
    intro m hm
    split at hm
    · exact List.dropLast_subset _ hm
    · exact hm
  simp only [trimUnderscore] at h
  by_cases hh : l.head? = some '_'
  · rw [if_pos hh] at h
    exact List.tail_subset _ (step _ h)
  · rw [if_neg hh] at h
    exact step _ h

theorem allowedChar_good {c : Char} (h : isAllowedChar c = true ∨ c = '_') :
    isForbiddenChar c = false ∧ isJsSpace c = false := by
  rcases h with h | h
  · simp only [isAllowedChar, decide_eq_true_eq] at h
    constructor
    · simp only [isForbiddenChar, decide_eq_false_iff_not]
      omega
    · simp only [isJsSpace, decide_eq_false_iff_not]
      omega
  · subst h; constructor <;> decide

theorem mem_sanitizePipeline_good {c : Char} {s : String}
    (h : c ∈ sanitizePipeline s) : isForbiddenChar c = false ∧ isJsSpace c = false := by
  unfold sanitizePipeline at h
  have h6 := List.take_subset _ _ h
  have h5 := mem_trimUnderscore h6
  rcases mem_collapseUnderscores h5 with h4 | h4
  · exact allowedChar_good (Or.inr h4)
  · exact allowedChar_good (Or.inl (List.of_mem_filter h4))

/-- C10: for every input string, `sanitizeFilename` returns a non-empty string
of at most 200 characters containing no path separator, none of the characters
`: * ? " < > |`, and no whitespace; when nothing survives the sanitization
pipeline it yields `"untitled"`. -/
theorem sanitizeFilename_safe (s : String) :
    sanitizeFilename s ≠ "" ∧
    (sanitizeFilename s).length ≤ 200 ∧
    ((sanitizeFilename s).data.all
      (fun c => !isForbiddenChar c && !isJsSpace c)) = true ∧
    (sanitizePipeline s = [] → sanitizeFilename s = "untitled") := by
  unfold sanitizeFilename
  have hlen : (sanitizePipeline s).length ≤ 200 := by
    unfold sanitizePipeline
    exact List.length_take_le _ _
  by_cases he : (sanitizePipeline s).isEmpty
  · rw [if_pos he]
    refine ⟨by decide, by decide, by decide, fun _ => rfl⟩
  · rw [if_neg he]
    refine ⟨?_, ?_, ?_, ?_⟩
    · intro hcontra
      have : (sanitizePipeline s) = [] := by
        have := congrArg String.data hcontra
        simpa using this
      simp [List.isEmpty_iff.mpr this] at he
    · simpa [String.length] using hlen
    · rw [List.all_eq_true]
      intro c hc
      have hg := mem_sanitizePipeline_good (c := c) (s := s) (by simpa using hc)
      simp [hg.1, hg.2]
    · intro hnil
      simp [List.isEmpty_iff.mpr hnil] at he

theorem sanitizeFilename_safe_witness :
    sanitizeFilename "   " = "untitled" ∧ sanitizeFilename "a b/c:*" ≠ "" := by
  have h1 := sanitizeFilename_safe "   "
  have h2 := sanitizeFilename_safe "a b/c:*"
  exact ⟨h1.2.2.2 (by rfl), h2.1⟩

/-! ### Record store and POST /capture (src/server/lurl.js) -/

/-- One archived item, as appended to `records.jsonl` by POST /capture
(src/server/lurl.js lines 2664-2674).  `blocked` is absent at creation time,
which JavaScript treats as `false`. -/
structure Record where
  id : String
  title : String
  pageUrl : String
  fileUrl : String
  type : String
  source : String
  capturedAt : String
  backupPath : String
  ref : Option String
  blocked : Bool
deriving DecidableEq

/-- Body of a POST /capture request (`{title, pageUrl, fileUrl, type, ref,
cookies}`); a missing string field is the empty string, matching JavaScript
falsiness of `undefined` and `''` in the `!title || !pageUrl || !fileUrl`
guard. -/
structure CaptureReq where
  title : String
  pageUrl : String
  fileUrl : String
  type : String
  ref : Option String
  cookies : String
deriving DecidableEq

/-- JSON response of POST /capture; `none` marks a field absent from the
serialized object. -/
structure CaptureResp where
  status : Nat
  ok : Bool
  error : Option String
  duplicate : Option Bool
  existingId : Option String
  id : Option String
  needUpload : Option Bool
deriving DecidableEq

/-- Digit characters of `Number.prototype.toString(36)`: `0-9` then `a-z`. -/
def base36Digit (d : Nat) : Char :=
  Char.ofNat (if d < 10 then 48 + d else 87 + d)

/-- Fuel-driven base-36 digit loop; `fuel := n` always suffices because the
argument is divided by 36 at every step. -/
def toBase36Go : Nat → Nat → List Char → List Char
  | 0, n, acc => base36Digit (n % 36) :: acc
  | fuel + 1, n, acc =>
    if n < 36 then base36Digit n :: acc
    else toBase36Go fuel (n / 36) (base36Digit (n % 36) :: acc)

/-- `Date.now().toString(36)`, the time-derived record id. -/
def toBase36 (n : Nat) : String :=
  String.mk (toBase36Go n n [])

/-- `updateRecordFileUrl` (src/server/lurl.js lines 804-813): read all
records, rotate `fileUrl` on every record with the given id, rewrite the log. -/
def updateRecordFileUrl (id newFileUrl : String) (records : List Record) :
    List Record :=
  records.map (fun r => if r.id = id then { r with fileUrl := newFileUrl } else r)

/-- Pathname of `new URL(u)` for an `http(s)://host/path?query` URL: the text
from the first `/` after the scheme-and-host part up to (excluding) the first
`?` or `#`, or `/` when the authority is not followed by a slash; `none` when
`u` has no `://` (where the JS `URL` constructor throws). -/
def urlPathname? (u : String) : Option String :=
  match splitFirstSub "://".data u.data with
  | none => none
  | some (_, afterScheme) =>
    let afterHost := afterScheme.dropWhile
      (fun c => decide (c ≠ '/' ∧ c ≠ '?' ∧ c ≠ '#'))
    match afterHost with
    | '/' :: _ => some (String.mk (afterHost.takeWhile
        (fun c => decide (c ≠ '?' ∧ c ≠ '#'))))
    | _ => some "/"

/-- `path.extname(p).toLowerCase()`: the suffix of the final path segment
starting at its last dot, empty when there is no dot or the only dot begins
the segment, lower-cased. -/
def extnameLower (p : String) : String :=
  let base := (splitOnCharList '/' p.data).getLastD []
  let afterLast := base.reverse.takeWhile (fun c => decide (c ≠ '.'))
  if afterLast.length = base.length then ""          -- no dot at all
  else if afterLast.length + 1 = base.length then "" -- the only dot is at index 0
  else String.mk (('.' :: afterLast.reverse).map Char.toLower)

/-- Video extensions whitelisted at src/server/lurl.js line 2656. -/
def videoExts : List String := [".mp4", ".mov", ".webm", ".avi"]

/-- The record-creation branch of POST /capture (src/server/lurl.js lines
2650-2685): derive the id from the capture time, build the sanitized
`backupPath`, append the record.  The fire-and-forget backend download that
follows runs asynchronously and does not alter the record log. -/
def captureCreate (req : CaptureReq) (records : List Record) (now : Nat)
    (nowIso : String) : CaptureResp × List Record :=
  let id := toBase36 now
  match urlPathname? req.fileUrl with
  | none =>
    -- `new URL(fileUrl)` throws; the outer catch answers 500 and appends nothing.
    (⟨500, false, some "invalid URL", none, none, none, none⟩, records)
  | some pathname =>
    let defaultExt := if req.type = "video" then ".mp4" else ".jpg"
    let urlExt := if extnameLower pathname = "" then defaultExt
      else extnameLower pathname
    let ext := if urlExt ∈ videoExts then urlExt else defaultExt
    let filename := sanitizeFilename req.title ++ "_" ++ id ++ ext
    let folder := if req.type = "video" then "videos" else "images"
    let record : Record :=
      { id := id, title := req.title, pageUrl := req.pageUrl,
        fileUrl := req.fileUrl, type := req.type, source := "lurl",
        capturedAt := nowIso, backupPath := folder ++ "/" ++ filename,
        ref := req.ref, blocked := false }
    (⟨200, true, none, none, none, some id, some true⟩, records ++ [record])

/-- The POST /capture handler (src/server/lurl.js lines 2614-2692).
`records` is the parsed content of `records.jsonl`, `fileExists` the
filesystem presence map over paths relative to the data directory, `now` the
capture timestamp in milliseconds. -/
def captureHandler (req : CaptureReq) (records : List Record)
    (fileExists : String → Bool) (now : Nat) (nowIso : String) :
    CaptureResp × List Record :=
  if req.title = "" ∨ req.pageUrl = "" ∨ req.fileUrl = "" then
    (⟨400, false, some "missing required fields", none, none, none, none⟩,
      records)
  else
    match records.find? (fun r => decide (r.pageUrl = req.pageUrl)) with
    | some dup =>
      if fileExists dup.backupPath then
        (⟨200, true, none, some true, some dup.id, none, none⟩, records)
      else
        let records' := if dup.fileUrl ≠ req.fileUrl then
            updateRecordFileUrl dup.id req.fileUrl records
          else records
        (⟨200, true, none, some true, none, some dup.id, some true⟩, records')
    | none => captureCreate req records now nowIso

/-! ### Properties of POST /capture -/

/-- C1: a capture whose `pageUrl` matches a stored record whose backup file
exists answers `ok=true, duplicate=true` and leaves the record log unchanged
(in particular no record is appended). -/
theorem capture_duplicate_keeps_log (req : CaptureReq) (records : List Record)
    (fileExists : String → Bool) (now : Nat) (nowIso : String) (dup : Record)
    (ht : req.title ≠ "") (hp : req.pageUrl ≠ "") (hf : req.fileUrl ≠ "")
    (hfind : records.find? (fun r => decide (r.pageUrl = req.pageUrl)) = some dup)
    (hex : fileExists dup.backupPath = true) :
    (captureHandler req records fileExists now nowIso).1.ok = true ∧
    (captureHandler req records fileExists now nowIso).1.duplicate = some true ∧
    (captureHandler req records fileExists now nowIso).2 = records := by
  unfold captureHandler
  rw [if_neg (by simp [ht, hp, hf]), hfind]
  simp [hex]

def c1Record : Record :=
  ⟨"a1", "t", "https://lurl.cc/P", "https://cdn/x.mp4", "video", "lurl",
    "2026-01-01", "videos/t_a1.mp4", none, false⟩

def c1Req : CaptureReq :=
  ⟨"t", "https://lurl.cc/P", "https://cdn/x.mp4", "video", none, ""⟩

theorem capture_duplicate_keeps_log_witness :
    (captureHandler c1Req [c1Record]
      (fun s => decide (s = "videos/t_a1.mp4")) 7 "iso").1.ok = true ∧
    (captureHandler c1Req [c1Record]
      (fun s => decide (s = "videos/t_a1.mp4")) 7 "iso").1.duplicate = some true ∧
    (captureHandler c1Req [c1Record]
      (fun s => decide (s = "videos/t_a1.mp4")) 7 "iso").2 = [c1Record] :=
  capture_duplicate_keeps_log c1Req [c1Record] _ 7 "iso" c1Record
    (by decide) (by decide) (by decide) (by rfl) (by rfl)

theorem getD_map_of_lt {α β : Type} (f : α → β) (l : List α) (k : Nat)
    (d : α) (d' : β) (hk : k < l.length) :
    (l.map f).getD k d' = f (l.getD k d) := by
  induction l generalizing k with
  | nil => simp at hk
  | cons a t ih =>
    cases k with
    | zero => simp [List.getD]
    | succ k =>
      simp only [List.map_cons, List.getD_cons_succ]
      exact ih k (by simpa using hk)

/-- C4: a capture whose `pageUrl` matches a stored record whose backup file is
absent and whose submitted `fileUrl` differs rotates that record's `fileUrl`
in place (every other field of every record unchanged) and answers
`needUpload=true`. -/
theorem capture_duplicate_rotates_fileUrl (req : CaptureReq)
    (records : List Record) (fileExists : String → Bool) (now : Nat)
    (nowIso : String) (dup : Record)
    (ht : req.title ≠ "") (hp : req.pageUrl ≠ "") (hf : req.fileUrl ≠ "")
    (hfind : records.find? (fun r => decide (r.pageUrl = req.pageUrl)) = some dup)
    (hex : fileExists dup.backupPath = false)
    (hdiff : dup.fileUrl ≠ req.fileUrl) :
    (captureHandler req records fileExists now nowIso).1.ok = true ∧
    (captureHandler req records fileExists now nowIso).1.duplicate = some true ∧
    (captureHandler req records fileExists now nowIso).1.needUpload = some true ∧
    (captureHandler req records fileExists now nowIso).2.length = records.length ∧
    ∀ k, k < records.length →
      ∀ d : Record,
        ((captureHandler req records fileExists now nowIso).2.getD k d).id
            = (records.getD k d).id ∧
        ((captureHandler req records fileExists now nowIso).2.getD k d).title
            = (records.getD k d).title ∧
        ((captureHandler req records fileExists now nowIso).2.getD k d).pageUrl
            = (records.getD k d).pageUrl ∧
        ((captureHandler req records fileExists now nowIso).2.getD k d).type
            = (records.getD k d).type ∧
        ((captureHandler req records fileExists now nowIso).2.getD k d).source
            = (records.getD k d).source ∧
        ((captureHandler req records fileExists now nowIso).2.getD k d).capturedAt
            = (records.getD k d).capturedAt ∧
        ((captureHandler req records fileExists now nowIso).2.getD k d).backupPath
            = (records.getD k d).backupPath ∧
        ((captureHandler req records fileExists now nowIso).2.getD k d).ref
            = (records.getD k d).ref ∧
        ((captureHandler req records fileExists now nowIso).2.getD k d).blocked
            = (records.getD k d).blocked ∧
        ((captureHandler req records fileExists now nowIso).2.getD k d).fileUrl
            = (if (records.getD k d).id = dup.id then req.fileUrl
               else (records.getD k d).fileUrl) := by
  have hout : captureHandler req records fileExists now nowIso
      = (⟨200, true, none, some true, none, some dup.id, some true⟩,
         updateRecordFileUrl dup.id req.fileUrl records) := by
    unfold captureHandler
    rw [if_neg (by simp [ht, hp, hf]), hfind]
    simp [hex, hdiff]
  rw [hout]
  refine ⟨rfl, rfl, rfl, by simp [updateRecordFileUrl], ?_⟩
  intro k hk d
  have hm := getD_map_of_lt
    (fun r => if r.id = dup.id then { r with fileUrl := req.fileUrl } else r)
    records k d d hk
  unfold updateRecordFileUrl
  rw [hm]
  generalize records.getD k d = r
  by_cases hid : r.id = dup.id <;> simp [hid]

def c4Record : Record :=
  ⟨"a1", "t", "https://lurl.cc/P", "https://cdn/old.mp4", "video", "lurl",
    "2026-01-01", "videos/t_a1.mp4", none, false⟩

def c4Req : CaptureReq :=
  ⟨"t", "https://lurl.cc/P", "https://cdn/new.mp4", "video", none, ""⟩

theorem capture_duplicate_rotates_fileUrl_witness :
    (captureHandler c4Req [c4Record] (fun _ => false) 7 "iso").1.needUpload
      = some true ∧
    ((captureHandler c4Req [c4Record] (fun _ => false) 7 "iso").2.getD 0
        c4Record).fileUrl = "https://cdn/new.mp4" := by
  have h := capture_duplicate_rotates_fileUrl c4Req [c4Record] (fun _ => false)
    7 "iso" c4Record (by decide) (by decide) (by decide) (by rfl) (by rfl)
    (by decide)
  refine ⟨h.2.2.1, ?_⟩
  have h0 := (h.2.2.2.2 0 (by decide) c4Record).2.2.2.2.2.2.2.2.2
  simpa using h0

def c9Record : Record :=
  ⟨"0", "t", "https://lurl.cc/A", "https://cdn/a.mp4", "video", "lurl",
    "1970-01-01", "videos/t_0.mp4", none, false⟩

def c9Req : CaptureReq :=
  ⟨"t2", "https://lurl.cc/B", "https://cdn/b.mp4", "video", none, ""⟩

/-- C9 counterexample: ids are derived from the capture timestamp only, with
no check against stored ids; capturing a fresh `pageUrl` at a millisecond
whose base-36 encoding equals a stored id (time 0, stored id "0") appends a
record whose id duplicates an existing one, so the log's ids are no longer
pairwise distinct. -/
theorem capture_id_collision :
    ¬ (((captureHandler c9Req [c9Record] (fun _ => false) 0 "iso").2.map
        Record.id).Nodup) := by
  decide

theorem updateRecordFileUrl_map_id (i u : String) (records : List Record) :
    (updateRecordFileUrl i u records).map Record.id = records.map Record.id := by
  unfold updateRecordFileUrl
  induction records with
  | nil => rfl
  | cons a t ih =>
    simp only [List.map_cons]
    rw [ih]
    by_cases h : a.id = i <;> simp [h]

theorem nodup_ids_append_fresh (records : List Record) (r : Record)
    (hnodup : (records.map Record.id).Nodup)
    (hfresh : r.id ∉ records.map Record.id) :
    ((records ++ [r]).map Record.id).Nodup := by
  rw [List.map_append, List.nodup_append]
  refine ⟨hnodup, List.nodup_singleton _, ?_⟩
  intro x hx hx1
  simp only [List.map_cons, List.map_nil, List.mem_singleton] at hx1
  exact hfresh (hx1 ▸ hx)

/-- C9 amended: record ids stay pairwise distinct provided the base-36
encoding of the capture timestamp differs from every stored id (the code
guarantees nothing more: the id is `Date.now().toString(36)`, never checked
against the log); `updateRecordFileUrl` always preserves the id sequence
exactly. -/
theorem capture_id_unique (req : CaptureReq) (records : List Record)
    (fileExists : String → Bool) (now : Nat) (nowIso : String)
    (hfresh : toBase36 now ∉ records.map Record.id)
    (hnodup : (records.map Record.id).Nodup) :
    (((captureHandler req records fileExists now nowIso).2.map
        Record.id).Nodup) ∧
    ∀ i u, (updateRecordFileUrl i u records).map Record.id
      = records.map Record.id := by
  refine ⟨?_, fun i u => updateRecordFileUrl_map_id i u records⟩
  unfold captureHandler
  split
  · exact hnodup
  · split
    · split
      · exact hnodup
      · rename_i dup _ _
        show ((if dup.fileUrl ≠ req.fileUrl then
            updateRecordFileUrl dup.id req.fileUrl records
          else records).map Record.id).Nodup
        split
        · rw [updateRecordFileUrl_map_id]; exact hnodup
        · exact hnodup
    · unfold captureCreate
      split
      · exact hnodup
      · exact nodup_ids_append_fresh records _ hnodup hfresh

theorem capture_id_unique_witness :
    (((captureHandler c9Req [c9Record] (fun _ => false) 1 "iso").2.map
        Record.id).Nodup) ∧
    ∀ i u, (updateRecordFileUrl i u [c9Record]).map Record.id
      = [c9Record].map Record.id :=
  capture_id_unique c9Req [c9Record] (fun _ => false) 1 "iso"
    (by decide) (by decide)

/-! ### `downloadFile` (src/server/lurl.js lines 729-797)

Each loop iteration issues exactly one `fetch` (one HTTP GET); its outcome is
supplied by an oracle.  `okStreamFail` models a response with `response.ok`
whose body streaming then raises: `fs.createWriteStream(destPath)` has already
created/truncated the file, the `catch` swallows the error and the loop moves
on to the next strategy, leaving a partial file on disk. -/

structure Strategy where
  referer : String
  cookie : String
  name : String
deriving DecidableEq

inductive FetchOutcome where
  | netError
  | httpNotOk (status : Nat)
  | okWritten (body : List Nat)
  | okStreamFail
deriving DecidableEq

/-- State of `destPath` on disk. -/
inductive FileState where
  | absent
  | interrupted
  | full (body : List Nat)
deriving DecidableEq

/-- `response.ok` of the strategy's fetch. -/
def responseOk : FetchOutcome → Bool
  | .okWritten _ => true
  | .okStreamFail => true
  | _ => false

/-- The strategy succeeded: response OK and body fully streamed to disk. -/
def strategySucceeds : FetchOutcome → Bool
  | .okWritten _ => true
  | _ => false

/-- The canonical CDN referer (lines 730-736): `https://myppt.cc/` when the
target URL contains `myppt.cc`, else `https://lurl.cc/`. -/
def baseRefererOf (url : String) : String :=
  if containsSub "myppt.cc".data url.data then "https://myppt.cc/"
  else "https://lurl.cc/"

/-- The ordered strategy list (lines 738-750): cookie+referer only when
cookies were supplied, then referer-only, then pageUrl-referer only when a
page URL was supplied. -/
def strategiesFor (url pageUrl cookies : String) : List Strategy :=
  (if cookies ≠ "" then [⟨baseRefererOf url, cookies, "cookie+referer"⟩]
   else []) ++
  [⟨baseRefererOf url, "", "referer-only"⟩] ++
  (if pageUrl ≠ "" then [⟨pageUrl, "", "pageUrl-referer"⟩] else [])

/-- The strategy loop (lines 752-796): returns the list of attempted
strategies (one GET each, in order), the boolean result, and the final state
of `destPath`. -/
def downloadFileGo (oracle : Strategy → FetchOutcome) :
    List Strategy → FileState → List Strategy × Bool × FileState
  | [], fs => ([], false, fs)
  | s :: rest, fs =>
    match oracle s with
    | .okWritten b => ([s], true, .full b)
    | .okStreamFail =>
      let r := downloadFileGo oracle rest .interrupted
      (s :: r.1, r.2.1, r.2.2)
    | _ =>
      let r := downloadFileGo oracle rest fs
      (s :: r.1, r.2.1, r.2.2)

/-- `downloadFile(url, destPath, pageUrl, cookies)` against an initial state
of `destPath`. -/
def downloadFile (oracle : Strategy → FetchOutcome)
    (url pageUrl cookies : String) (fs0 : FileState) :
    List Strategy × Bool × FileState :=
  downloadFileGo oracle (strategiesFor url pageUrl cookies) fs0

theorem downloadFileGo_attempts (oracle : Strategy → FetchOutcome) :
    ∀ (ss : List Strategy) (fs : FileState),
      (downloadFileGo oracle ss fs).1
        = ss.takeWhile (fun s => !strategySucceeds (oracle s)) ++
          (ss.dropWhile (fun s => !strategySucceeds (oracle s))).take 1 ∧
      (downloadFileGo oracle ss fs).2.1
        = ss.any (fun s => strategySucceeds (oracle s)) := by
  intro ss
  induction ss with
  | nil => intro fs; exact ⟨rfl, rfl⟩
  | cons s rest ih =>
    intro fs
    cases ho : oracle s with
    | okWritten b =>
      constructor
      · simp [downloadFileGo, ho, List.takeWhile_cons, List.dropWhile_cons,
          strategySucceeds]
      · simp [downloadFileGo, ho, strategySucceeds]
    | okStreamFail =>
      constructor
      · simp [downloadFileGo, ho, List.takeWhile_cons, List.dropWhile_cons,
          strategySucceeds, (ih FileState.interrupted).1]
      · simp [downloadFileGo, ho, strategySucceeds,
          (ih FileState.interrupted).2]
    | netError =>
      constructor
      · simp [downloadFileGo, ho, List.takeWhile_cons, List.dropWhile_cons,
          strategySucceeds, (ih fs).1]
      · simp [downloadFileGo, ho, strategySucceeds, (ih fs).2]
    | httpNotOk st =>
      constructor
      · simp [downloadFileGo, ho, List.takeWhile_cons, List.dropWhile_cons,
          strategySucceeds, (ih fs).1]
      · simp [downloadFileGo, ho, strategySucceeds, (ih fs).2]

def c3Oracle : Strategy → FetchOutcome := fun s =>
  if s.name = "cookie+referer" then .okStreamFail else .okWritten [1, 2, 3]

/-- C3 counterexample: with cookies supplied, the first (cookie-bearing)
strategy's HTTP response is OK but its body streaming fails; the loop goes on
to issue a second GET and returns success from the second strategy, so the
function does not return success at the first strategy whose response is OK
and attempts a later strategy after an OK response. -/
theorem downloadFile_second_get_after_ok_response :
    (strategiesFor "https://cdn.lurl.cc/f.mp4" "" "sid=1").length = 2 ∧
    responseOk (c3Oracle ((strategiesFor "https://cdn.lurl.cc/f.mp4" "" "sid=1"
      ).getD 0 ⟨"", "", ""⟩)) = true ∧
    (downloadFile c3Oracle "https://cdn.lurl.cc/f.mp4" "" "sid=1"
      FileState.absent).1.length = 2 ∧
    (downloadFile c3Oracle "https://cdn.lurl.cc/f.mp4" "" "sid=1"
      FileState.absent).2.1 = true := by
  decide

/-- C3 amended: the strategy list is ordered cookie+canonical-referer (only
when cookies were supplied), canonical referer alone, original page URL as
referer (only when supplied); the loop issues one GET per attempted strategy
in exactly that order, stops at the first strategy that succeeds (response OK
and body fully written — an OK response whose streaming fails falls through
to the next strategy), and returns true exactly when some strategy succeeds. -/
theorem downloadFile_strategy_order (oracle : Strategy → FetchOutcome)
    (url pageUrl cookies : String) (fs0 : FileState) :
    strategiesFor url pageUrl cookies
      = (if cookies ≠ "" then [⟨baseRefererOf url, cookies, "cookie+referer"⟩]
         else []) ++
        [⟨baseRefererOf url, "", "referer-only"⟩] ++
        (if pageUrl ≠ "" then [⟨pageUrl, "", "pageUrl-referer"⟩] else []) ∧
    (downloadFile oracle url pageUrl cookies fs0).1
      = (strategiesFor url pageUrl cookies).takeWhile
          (fun s => !strategySucceeds (oracle s)) ++
        ((strategiesFor url pageUrl cookies).dropWhile
          (fun s => !strategySucceeds (oracle s))).take 1 ∧
    (downloadFile oracle url pageUrl cookies fs0).2.1
      = (strategiesFor url pageUrl cookies).any
          (fun s => strategySucceeds (oracle s)) :=
  ⟨rfl, (downloadFileGo_attempts oracle _ fs0).1,
    (downloadFileGo_attempts oracle _ fs0).2⟩

theorem downloadFileGo_fs_unchanged (oracle : Strategy → FetchOutcome) :
    ∀ (ss : List Strategy) (fs : FileState),
      (∀ s ∈ ss, responseOk (oracle s) = false) →
      (downloadFileGo oracle ss fs).2.2 = fs := by
  intro ss
  induction ss with
  | nil => intro fs _; rfl
  | cons s rest ih =>
    intro fs hall
    have hs := hall s (List.mem_cons_self _ _)
    have hrest : ∀ t ∈ rest, responseOk (oracle t) = false :=
      fun t ht => hall t (List.mem_cons_of_mem _ ht)
    cases ho : oracle s with
    | okWritten b => rw [ho] at hs; simp [responseOk] at hs
    | okStreamFail => rw [ho] at hs; simp [responseOk] at hs
    | netError => simp [downloadFileGo, ho, ih fs hrest]
    | httpNotOk st => simp [downloadFileGo, ho, ih fs hrest]

def c5Oracle : Strategy → FetchOutcome := fun _ => .okStreamFail

/-- C5 counterexample: the sole strategy's response is OK but streaming the
body to disk fails; `downloadFile` returns `false`, yet
`fs.createWriteStream` has already created the file at `destPath`, so a
(partial) file exists although the function reported failure. -/
theorem downloadFile_false_yet_file_present :
    (downloadFile c5Oracle "https://cdn.lurl.cc/f.mp4" "" ""
      FileState.absent).2.1 = false ∧
    (downloadFile c5Oracle "https://cdn.lurl.cc/f.mp4" "" ""
      FileState.absent).2.2 ≠ FileState.absent := by
  decide

/-- C5 amended: if every strategy fails `downloadFile` returns `false` (and
it is a total function — no exception escapes: every fetch or streaming error
is caught and turned into fall-through); when no strategy's response is even
OK, nothing touches `destPath`, so failure is signalled by continued file
absence.  When a response is OK but its body streaming fails, a partial file
can remain at `destPath` despite the `false` return. -/
theorem downloadFile_failure_semantics (oracle : Strategy → FetchOutcome)
    (url pageUrl cookies : String) (fs0 : FileState) :
    ((downloadFile oracle url pageUrl cookies fs0).2.1 = false ↔
      ∀ s ∈ strategiesFor url pageUrl cookies,
        strategySucceeds (oracle s) = false) ∧
    ((∀ s ∈ strategiesFor url pageUrl cookies,
        responseOk (oracle s) = false) →
      (downloadFile oracle url pageUrl cookies fs0).2.2 = fs0) := by
  constructor
  · show (downloadFileGo oracle (strategiesFor url pageUrl cookies) fs0).2.1
        = false ↔ _
    rw [(downloadFileGo_attempts oracle _ fs0).2]
    simp [List.any_eq_true]
  · exact downloadFileGo_fs_unchanged oracle _ fs0

def c5FailOracle : Strategy → FetchOutcome := fun _ => .httpNotOk 403

theorem downloadFile_failure_semantics_witness :
    (downloadFile c5FailOracle "https://cdn.lurl.cc/f.mp4"
      "https://lurl.cc/P" "" FileState.absent).2.1 = false ∧
    (downloadFile c5FailOracle "https://cdn.lurl.cc/f.mp4"
      "https://lurl.cc/P" "" FileState.absent).2.2 = FileState.absent := by
  have h := downloadFile_failure_semantics c5FailOracle
    "https://cdn.lurl.cc/f.mp4" "https://lurl.cc/P" "" FileState.absent
  exact ⟨h.1.mpr (by decide), h.2 (by decide)⟩

/-! ### Chunked upload assembly (src/server/lurl.js lines 2694-2783)

A chunk upload stores `chunk_<index>` in the per-record chunk directory
(`fs.writeFileSync` overwrites an existing file of the same index), counts the
chunk files, and when the count equals the declared total reads `chunk_0` …
`chunk_<total-1>` in index order, concatenates them, writes the final file and
removes the chunk directory.  A `readFileSync` of a missing index throws,
which the outer catch answers with 500: no final file is written and the
chunk directory is kept.  Bytes are modelled as `List Nat`. -/

/-- The per-record chunk directory: one entry per `chunk_<i>` file. -/
abbrev ChunkDir := List (Nat × List Nat)

/-- `fs.writeFileSync(chunk_i, buffer)`: overwrite the file if it exists,
else create it. -/
def putChunk (i : Nat) (d : List Nat) (dir : ChunkDir) : ChunkDir :=
  if dir.any (fun p => decide (p.1 = i)) then
    dir.map (fun p => if p.1 = i then (i, d) else p)
  else dir ++ [(i, d)]

/-- `fs.readFileSync(chunk_i)`: `none` models the throw on a missing file. -/
def lookupChunk (dir : ChunkDir) (i : Nat) : Option (List Nat) :=
  (dir.find? (fun p => decide (p.1 = i))).map (fun p => p.2)

/-- Read `chunk_0` … `chunk_(total-1)` in index order and concatenate. -/
def assembleChunks (total : Nat) (dir : ChunkDir) : Option (List Nat) :=
  ((List.range total).mapM (lookupChunk dir)).map List.flatten

/-- State of one record's upload session: the chunk directory and the final
file at the record's destination path (if written). -/
structure UploadState where
  dir : ChunkDir
  finalFile : Option (List Nat)
deriving DecidableEq

/-- One POST /api/upload request in chunked mode (lines 2735-2768): reject an
empty body, store the chunk, count received chunk files, and when the count
equals the declared total assemble in index order, write the final file, and
delete the chunk directory. -/
def uploadChunk (total i : Nat) (d : List Nat) (st : UploadState) :
    UploadState :=
  if d.length = 0 then st
  else
    let dir' := putChunk i d st.dir
    if dir'.length = total then
      match assembleChunks total dir' with
      | some final => ⟨[], some final⟩
      | none => ⟨dir', st.finalFile⟩
    else ⟨dir', st.finalFile⟩

/-- A whole arrival sequence of chunk uploads for one record. -/
def runUploads (total : Nat) (arrivals : List (Nat × List Nat))
    (st : UploadState) : UploadState :=
  arrivals.foldl (fun s p => uploadChunk total p.1 p.2 s) st

/-! ### Properties of chunk assembly -/

theorem putChunk_keys (i : Nat) (d : List Nat) (dir : ChunkDir) :
    (putChunk i d dir).map Prod.fst
      = if dir.any (fun p => decide (p.1 = i)) then dir.map Prod.fst
        else dir.map Prod.fst ++ [i] := by
  unfold putChunk
  split
  · rw [List.map_map]
    apply List.map_congr_left
    intro p _
    by_cases h : p.1 = i <;> simp [h]
  · simp

theorem putChunk_not_mem (i : Nat) (d : List Nat) (dir : ChunkDir)
    (h : i ∉ dir.map Prod.fst) : putChunk i d dir = dir ++ [(i, d)] := by
  unfold putChunk
  rw [if_neg]
  intro hc
  rcases List.any_eq_true.mp hc with ⟨p, hp, hpi⟩
  exact h (List.mem_map.mpr ⟨p, hp, (of_decide_eq_true hpi).symm ▸ rfl⟩)

theorem lookupChunk_mapKeys (data : Nat → List Nat) (i : Nat) :
    ∀ keys : List Nat, i ∈ keys →
      lookupChunk (keys.map (fun j => (j, data j))) i = some (data i) := by
  intro keys
  induction keys with
  | nil => intro h; simp at h
  | cons k rest ih =>
    intro h
    unfold lookupChunk at *
    by_cases hk : k = i
    · subst hk
      simp [List.find?_cons_of_pos]
    · rcases List.mem_cons.mp h with h1 | h2
      · exact absurd h1.symm hk
      · simpa [List.find?_cons_of_neg, hk] using ih h2

theorem lookupChunk_isSome_iff (dir : ChunkDir) (j : Nat) :
    (lookupChunk dir j).isSome ↔ j ∈ dir.map Prod.fst := by
  unfold lookupChunk
  cases hf : dir.find? (fun p => decide (p.1 = j)) with
  | none =>
    simp only [Option.map_none', Option.isSome_none, Bool.false_eq_true,
      false_iff]
    intro hj
    rcases List.mem_map.mp hj with ⟨p, hp, hpj⟩
    have := List.find?_eq_none.mp hf p hp
    simp [hpj] at this
  | some p =>
    simp only [Option.map_some', Option.isSome_some, true_iff]
    have hmem := List.mem_of_find?_eq_some hf
    have hpj : p.1 = j := by
      have := List.find?_some hf
      simpa using this
    exact List.mem_map.mpr ⟨p, hmem, hpj⟩

theorem mapM_eq_some_of_forall {α β : Type} (f : α → Option β) (g : α → β) :
    ∀ l : List α, (∀ a ∈ l, f a = some (g a)) → l.mapM f = some (l.map g) := by
  intro l
  induction l with
  | nil => intro _; rfl
  | cons a rest ih =>
    intro h
    rw [List.mapM_cons, h a (List.mem_cons_self _ _),
      ih (fun b hb => h b (List.mem_cons_of_mem _ hb))]
    rfl

theorem mapM_eq_none_of_mem {α β : Type} (f : α → Option β) {a : α} :
    ∀ l : List α, a ∈ l → f a = none → l.mapM f = none := by
  intro l
  induction l with
  | nil => intro h; simp at h
  | cons b rest ih =>
    intro hmem hnone
    rw [List.mapM_cons]
    rcases List.mem_cons.mp hmem with h1 | h2
    · rw [← h1, hnone]; rfl
    · cases hfb : f b
      · rfl
      · rw [ih h2 hnone]; rfl

theorem assembleChunks_of_perm (N : Nat) (data : Nat → List Nat)
    (keys : List Nat) (hperm : keys.Perm (List.range N)) :
    assembleChunks N (keys.map (fun j => (j, data j)))
      = some (((List.range N).map data).flatten) := by
  unfold assembleChunks
  rw [mapM_eq_some_of_forall (lookupChunk (keys.map fun j => (j, data j)))
    data (List.range N) ?_]
  · rfl
  · intro j hj
    exact lookupChunk_mapKeys data j keys (hperm.mem_iff.mpr hj)

theorem runUploads_complete (N : Nat) (data : Nat → List Nat)
    (hdata : ∀ i, i < N → data i ≠ []) :
    ∀ (rest done : List Nat), (done ++ rest).Perm (List.range N) → rest ≠ [] →
      runUploads N (rest.map (fun i => (i, data i)))
          ⟨done.map (fun j => (j, data j)), none⟩
        = ⟨[], some (((List.range N).map data).flatten)⟩ := by
  intro rest
  induction rest with
  | nil => intro done _ hne; exact absurd rfl hne
  | cons i rest ih =>
    intro done hperm _
    have hnodup : (done ++ i :: rest).Nodup :=
      hperm.nodup_iff.mpr (List.nodup_range N)
    have hiN : i < N := List.mem_range.mp
      (hperm.subset (List.mem_append_right _ (List.mem_cons_self _ _)))
    have hidone : i ∉ done := by
      intro hmem
      have hdisj := (List.nodup_append.mp hnodup).2.2
      exact hdisj hmem (List.mem_cons_self _ _)
    have hkeys : (done.map (fun j => (j, data j))).map Prod.fst = done := by
      rw [List.map_map]
      simp [Function.comp_def]
    have hput : putChunk i (data i) (done.map fun j => (j, data j))
        = (done ++ [i]).map (fun j => (j, data j)) := by
      rw [putChunk_not_mem _ _ _ (by rw [hkeys]; exact hidone)]
      simp
    have hstep : runUploads N ((i :: rest).map (fun k => (k, data k)))
          ⟨done.map (fun j => (j, data j)), none⟩
        = runUploads N (rest.map (fun k => (k, data k)))
            (uploadChunk N i (data i) ⟨done.map (fun j => (j, data j)), none⟩) := by
      rw [List.map_cons]
      rfl
    rw [hstep]
    have hlentot : done.length + (rest.length + 1) = N := by
      have := hperm.length_eq
      simpa [Nat.add_assoc, Nat.add_comm, Nat.add_left_comm] using this
    by_cases hrest : rest = []
    · have hlen : done.length + 1 = N := by
        rw [hrest] at hlentot
        simpa using hlentot
      have hdone : uploadChunk N i (data i)
            ⟨done.map (fun j => (j, data j)), none⟩
          = ⟨[], some (((List.range N).map data).flatten)⟩ := by
        unfold uploadChunk
        rw [if_neg (by simpa using hdata i hiN), hput]
        rw [if_pos (by simpa using hlen)]
        rw [assembleChunks_of_perm N data (done ++ [i]) (by
          refine List.Perm.trans ?_ hperm
          rw [hrest])]
      rw [hrest, hdone]
      rfl
    · have hrl : 0 < rest.length := List.length_pos.mpr hrest
      have hmid : uploadChunk N i (data i)
            ⟨done.map (fun j => (j, data j)), none⟩
          = ⟨(done ++ [i]).map (fun j => (j, data j)), none⟩ := by
        unfold uploadChunk
        rw [if_neg (by simpa using hdata i hiN), hput]
        rw [if_neg (by
          simp only [List.length_map, List.length_append, List.length_cons,
            List.length_nil]
          omega)]
      rw [hmid]
      have hperm' : ((done ++ [i]) ++ rest).Perm (List.range N) := by
        rw [List.append_assoc]
        simpa using hperm
      exact ih (done ++ [i]) hperm' hrest

/-- C2: chunks indexed `0..N-1` arriving in any order (each with a non-empty
body) produce, once the last one arrives, a final file byte-identical to the
concatenation of the chunks in declared-index order, and the chunk directory
is removed. -/
theorem chunk_assembly_order_independent (N : Nat) (data : Nat → List Nat)
    (order : List Nat)
    (hperm : order.Perm (List.range N))
    (hdata : ∀ i, i < N → data i ≠ [])
    (hN : 0 < N) :
    runUploads N (order.map (fun i => (i, data i))) ⟨[], none⟩
      = ⟨[], some (((List.range N).map data).flatten)⟩ := by
  have hne : order ≠ [] := by
    intro h
    have := hperm.length_eq
    rw [h] at this
    simp at this
    omega
  exact runUploads_complete N data hdata order [] (by simpa using hperm) hne

theorem chunk_assembly_order_independent_witness :
    runUploads 2 [(1, [7, 8]), (0, [5])] ⟨[], none⟩
      = ⟨[], some [5, 7, 8]⟩ := by
  have h := chunk_assembly_order_independent 2
    (fun i => if i = 0 then [5] else [7, 8]) [1, 0]
    (by decide) (fun i _ => by by_cases h0 : i = 0 <;> simp [h0]) (by decide)
  simpa using h

/-- C7: in a session whose stored chunk files carry pairwise-distinct indices
below the declared total, a chunk upload writes the final file and deletes
the chunk directory exactly when the count of chunk files after storing the
new chunk equals the declared total; while some declared index is missing,
no final file is produced. -/
theorem chunk_assembly_all_or_nothing (total i : Nat) (d : List Nat)
    (st : UploadState)
    (hnodup : (st.dir.map Prod.fst).Nodup)
    (hkeys : ∀ k ∈ st.dir.map Prod.fst, k < total)
    (hi : i < total)
    (hd : d ≠ [])
    (hfin : st.finalFile = none) :
    (((uploadChunk total i d st).finalFile.isSome ∧
        (uploadChunk total i d st).dir = [])
      ↔ (putChunk i d st.dir).length = total) ∧
    ((∃ j, j < total ∧ j ∉ (putChunk i d st.dir).map Prod.fst) →
      (uploadChunk total i d st).finalFile = none) := by
  have hK := putChunk_keys i d st.dir
  have hnodup' : ((putChunk i d st.dir).map Prod.fst).Nodup := by
    rw [hK]
    split
    · exact hnodup
    · rename_i hany
      rw [List.nodup_append]
      refine ⟨hnodup, List.nodup_singleton _, ?_⟩
      intro a ha hai
      simp only [List.mem_singleton] at hai
      subst hai
      rcases List.mem_map.mp ha with ⟨p, hp, hpa⟩
      exact hany (List.any_eq_true.mpr ⟨p, hp, decide_eq_true (by rw [hpa])⟩)
  have hkeys' : ∀ k ∈ (putChunk i d st.dir).map Prod.fst, k < total := by
    rw [hK]
    split
    · exact hkeys
    · intro k hk
      rcases List.mem_append.mp hk with h1 | h2
      · exact hkeys k h1
      · simp only [List.mem_singleton] at h2
        exact h2 ▸ hi
  unfold uploadChunk
  rw [if_neg (fun hc => hd (List.length_eq_zero.mp hc))]
  by_cases hlen : (putChunk i d st.dir).length = total
  · rw [if_pos hlen]
    have hlenkeys : ((putChunk i d st.dir).map Prod.fst).length = total := by
      simpa using hlen
    have hsub : (putChunk i d st.dir).map Prod.fst ⊆ List.range total :=
      fun k hk => List.mem_range.mpr (hkeys' k hk)
    have hpm : ((putChunk i d st.dir).map Prod.fst).Perm (List.range total) :=
      (List.subperm_of_subset hnodup' hsub).perm_of_length_le
        (by simp [hlenkeys])
    have hmem : ∀ j, j < total → j ∈ (putChunk i d st.dir).map Prod.fst :=
      fun j hj => hpm.mem_iff.mpr (List.mem_range.mpr hj)
    have hassem : ∃ b, assembleChunks total (putChunk i d st.dir) = some b := by
      unfold assembleChunks
      have hmapm := mapM_eq_some_of_forall
        (lookupChunk (putChunk i d st.dir))
        (fun j => (lookupChunk (putChunk i d st.dir) j).getD [])
        (List.range total) ?_
      · exact ⟨_, by rw [hmapm]; rfl⟩
      · intro j hj
        have hs : (lookupChunk (putChunk i d st.dir) j).isSome :=
          (lookupChunk_isSome_iff _ _).mpr (hmem j (List.mem_range.mp hj))
        cases hx : lookupChunk (putChunk i d st.dir) j with
        | none => rw [hx] at hs; simp at hs
        | some b => simp [hx]
    rcases hassem with ⟨b, hb⟩
    rw [hb]
    refine ⟨⟨fun _ => hlen, fun _ => ⟨rfl, rfl⟩⟩, ?_⟩
    rintro ⟨j, hj, hnot⟩
    exact absurd (hmem j hj) hnot
  · rw [if_neg hlen]
    refine ⟨⟨?_, ?_⟩, ?_⟩
    · rintro ⟨hsome, _⟩
      simp only [hfin, Option.isSome_none] at hsome
      exact absurd hsome (by simp)
    · intro h
      exact absurd h hlen
    · intro _
      exact hfin

theorem chunk_assembly_all_or_nothing_witness :
    (uploadChunk 2 1 [9] ⟨[(0, [5])], none⟩).finalFile.isSome ∧
    (uploadChunk 2 1 [9] ⟨[(0, [5])], none⟩).dir = [] := by
  have h := chunk_assembly_all_or_nothing 2 1 [9] ⟨[(0, [5])], none⟩
    (by decide) (by decide) (by decide) (by decide) rfl
  exact h.1.mpr (by decide)

/-! ### `batchRetry` (src/server/_lurl-retry.js lines 141-190)

`downloadInPageContext` wraps its whole body in try/catch and always returns
`{success, …}` — a single record's navigation, fetch or undersized-payload
failure is turned into `{success:false}` and never escapes.  Its outcome is
therefore an oracle `RetryRecord → Bool`.  `batchRetry` slices the record
list into groups of `concurrency` and processes the groups sequentially;
within a group, each finished record bumps `completed`, pushes into
`successIds` on success, and fires the progress callback (modelled as an
appended log entry). -/

structure RetryRecord where
  id : String
  pageUrl : String
  fileUrl : String
  backupPath : String
deriving DecidableEq

/-- `records.slice(i, i + concurrency)` grouping; written so that
`c - 1` chunks off the tail, which agrees with `slice` for every `c ≥ 1`
(the server only calls it with the default concurrency 4). -/
def chunkGroups (c : Nat) : List RetryRecord → List (List RetryRecord)
  | [] => []
  | x :: xs => (x :: xs.take (c - 1)) :: chunkGroups c (xs.drop (c - 1))
  termination_by l => l.length
  decreasing_by
    simp only [List.length_cons, List.length_drop]
    omega

/-- Running state of a batch: counters, collected ids, progress-callback log
`(completed, total, record id, success)`. -/
structure BatchState where
  successCount : Nat
  successIds : List String
  completed : Nat
  progress : List (Nat × Nat × String × Bool)
deriving DecidableEq

def processItem (oracle : RetryRecord → Bool) (total : Nat)
    (st : BatchState) (r : RetryRecord) : BatchState :=
  let ok := oracle r
  { successCount := st.successCount + (if ok then 1 else 0),
    successIds := st.successIds ++ (if ok then [r.id] else []),
    completed := st.completed + 1,
    progress := st.progress ++ [(st.completed + 1, total, r.id, ok)] }

/-- `batchRetry(records, dataDir, onProgress, concurrency)`: the returned
`{successCount, successIds, total}` together with the progress log. -/
def batchRetry (records : List RetryRecord) (oracle : RetryRecord → Bool)
    (concurrency : Nat) : BatchState × Nat :=
  let groups := chunkGroups concurrency records
  let final := groups.foldl
    (fun st g => g.foldl (processItem oracle records.length) st)
    ⟨0, [], 0, []⟩
  (final, records.length)

theorem chunkGroups_flatten (c : Nat) :
    ∀ l : List RetryRecord, (chunkGroups c l).flatten = l := by
  intro l
  induction l using chunkGroups.induct c with
  | case1 => simp [chunkGroups]
  | case2 x xs ih =>
    rw [chunkGroups, List.flatten_cons, ih]
    simp

theorem foldl_processItem (oracle : RetryRecord → Bool) (total : Nat) :
    ∀ (l : List RetryRecord) (st : BatchState),
      (l.foldl (processItem oracle total) st).successCount
          = st.successCount + (l.filter oracle).length ∧
      (l.foldl (processItem oracle total) st).successIds
          = st.successIds ++ (l.filter oracle).map RetryRecord.id ∧
      (l.foldl (processItem oracle total) st).completed
          = st.completed + l.length ∧
      (l.foldl (processItem oracle total) st).progress.length
          = st.progress.length + l.length := by
  intro l
  induction l with
  | nil => intro st; simp
  | cons r rest ih =>
    intro st
    rw [List.foldl_cons]
    rcases ih (processItem oracle total st r) with ⟨h1, h2, h3, h4⟩
    refine ⟨?_, ?_, ?_, ?_⟩
    · rw [h1]
      by_cases ho : oracle r = true
      · simp [processItem, ho, List.filter_cons]
        omega
      · simp [processItem, ho, List.filter_cons]
    · rw [h2]
      by_cases ho : oracle r = true <;>
        simp [processItem, ho, List.filter_cons]
    · rw [h3]
      simp [processItem]
      omega
    · rw [h4]
      simp [processItem]
      omega

theorem foldl_groups (oracle : RetryRecord → Bool) (total : Nat) :
    ∀ (groups : List (List RetryRecord)) (st : BatchState),
      groups.foldl (fun s g => g.foldl (processItem oracle total) s) st
        = groups.flatten.foldl (processItem oracle total) st := by
  intro groups
  induction groups with
  | nil => intro st; rfl
  | cons g rest ih =>
    intro st
    rw [List.foldl_cons, List.flatten_cons, List.foldl_append, ih]

/-- C6: `batchRetry` processes every record of its input (one per-item
progress report each, independent of grouping), per-item failures never abort
the batch, and it returns `successCount` = the number of records whose retry
succeeded, `successIds` = exactly the ids of those records, and `total` = the
length of the input list. -/
theorem batchRetry_spec (records : List RetryRecord)
    (oracle : RetryRecord → Bool) (concurrency : Nat) :
    (batchRetry records oracle concurrency).1.successCount
        = (records.filter oracle).length ∧
    (batchRetry records oracle concurrency).1.successIds
        = (records.filter oracle).map RetryRecord.id ∧
    (batchRetry records oracle concurrency).2 = records.length ∧
    (batchRetry records oracle concurrency).1.progress.length
        = records.length := by
  rcases foldl_processItem oracle records.length records ⟨0, [], 0, []⟩
    with ⟨h1, h2, h3, h4⟩
  have hfold : (chunkGroups concurrency records).foldl
      (fun st g => g.foldl (processItem oracle records.length) st)
      (⟨0, [], 0, []⟩ : BatchState)
      = records.foldl (processItem oracle records.length) ⟨0, [], 0, []⟩ := by
    rw [foldl_groups, chunkGroups_flatten]
  refine ⟨?_, ?_, rfl, ?_⟩
  · show ((chunkGroups concurrency records).foldl
      (fun st g => g.foldl (processItem oracle records.length) st)
      (⟨0, [], 0, []⟩ : BatchState)).successCount = _
    rw [hfold]
    simpa using h1
  · show ((chunkGroups concurrency records).foldl
      (fun st g => g.foldl (processItem oracle records.length) st)
      (⟨0, [], 0, []⟩ : BatchState)).successIds = _
    rw [hfold]
    simpa using h2
  · show ((chunkGroups concurrency records).foldl
      (fun st g => g.foldl (processItem oracle records.length) st)
      (⟨0, [], 0, []⟩ : BatchState)).progress.length = _
    rw [hfold]
    simpa using h4

/-! ### Quota-gated recovery service

The quota-gated recovery endpoint (visitor ledger with `usedCount`,
`freeQuota`, `paidQuota`, `history`, slug matching, `alreadyRecovered`) is
part of this repository but its handler is not among the files under src/
(the nearest relative, `recordView` in src/unnamed/part_001, is a daily-view
deduplicator without any of these fields), so the service is modelled from
the specification. -/

/-- Modelled from the spec: one entry of a visitor's recovery history
(`{slug, backupUrl, usedAt}`, §3 Visitor Quota). -/
structure HistoryEntry where
  slug : String
  backupUrl : String
  usedAt : String
deriving DecidableEq

/-- Modelled from the spec: the per-visitor quota ledger entry (§3). -/
structure Visitor where
  usedCount : Nat
  freeQuota : Nat
  paidQuota : Nat
  history : List HistoryEntry
deriving DecidableEq

/-- Modelled from the spec: the recovery responses of §4.5 / §6 —
"no backup", idempotent replay, `quota_exhausted`, and success with the
updated remaining balance. -/
inductive RecoverResult where
  | noBackup
  | alreadyRecovered (backupUrl : String)
  | quotaExhausted
  | ok (backupUrl : String) (remaining : Int)
deriving DecidableEq

/-- Modelled from the spec: the normalized slug — the case-folded trailing
path segment of a share URL (Glossary; §4.5). -/
def slugOf (u : String) : String :=
  String.mk ((((splitOnCharList '/' u.data).filter
    (fun s => !s.isEmpty)).getLastD []).map Char.toLower)

/-- Modelled from the spec: the recovery procedure of §4.5 — reject blocked
records, match stored records on slug equality, report "no backup" when no
match or the backing file is absent, replay idempotently when the slug is in
the visitor's history, fail with `quota_exhausted` when
`(freeQuota − usedCount) + paidQuota ≤ 0`, otherwise append a history entry,
increment `usedCount` and return the backup URL with the updated balance. -/
def recover (records : List Record) (fileExists : String → Bool)
    (v : Visitor) (pageUrl : String) (usedAt : String) :
    RecoverResult × Visitor :=
  match records.find?
      (fun r => !r.blocked && decide (slugOf r.pageUrl = slugOf pageUrl)) with
  | none => (.noBackup, v)
  | some r =>
    if fileExists r.backupPath then
      if slugOf pageUrl ∈ v.history.map HistoryEntry.slug then
        (.alreadyRecovered r.backupPath, v)
      else
        if ((v.freeQuota : Int) - v.usedCount) + v.paidQuota ≤ 0 then
          (.quotaExhausted, v)
        else
          (.ok r.backupPath
            ((((v.freeQuota : Int) - v.usedCount) + v.paidQuota) - 1),
           { v with usedCount := v.usedCount + 1,
                    history := v.history ++
                      [⟨slugOf pageUrl, r.backupPath, usedAt⟩] })
    else (.noBackup, v)

/-- C8 (spec-modelled): recovery is idempotent per visitor and slug —
`usedCount` never decreases and changes only when the requested slug is not
already in the visitor's history; recovering an already-recovered slug leaves
the visitor ledger untouched (no duplicate history entry, `usedCount`
unchanged) and, when the matched record's backup still exists, answers
`alreadyRecovered`; a successful recovery puts the slug into the history and
increments `usedCount` by exactly one. -/
theorem recover_idempotent (records : List Record)
    (fileExists : String → Bool) (v : Visitor) (pageUrl usedAt : String) :
    v.usedCount ≤ (recover records fileExists v pageUrl usedAt).2.usedCount ∧
    ((recover records fileExists v pageUrl usedAt).2.usedCount ≠ v.usedCount →
      slugOf pageUrl ∉ v.history.map HistoryEntry.slug) ∧
    (slugOf pageUrl ∈ v.history.map HistoryEntry.slug →
      (recover records fileExists v pageUrl usedAt).2 = v) ∧
    (slugOf pageUrl ∈ v.history.map HistoryEntry.slug →
      ∀ r, records.find? (fun q => !q.blocked &&
          decide (slugOf q.pageUrl = slugOf pageUrl)) = some r →
        fileExists r.backupPath = true →
        (recover records fileExists v pageUrl usedAt).1
          = .alreadyRecovered r.backupPath) ∧
    (∀ b rem, (recover records fileExists v pageUrl usedAt).1 = .ok b rem →
      slugOf pageUrl ∈
        (recover records fileExists v pageUrl usedAt).2.history.map
          HistoryEntry.slug ∧
      (recover records fileExists v pageUrl usedAt).2.usedCount
        = v.usedCount + 1) := by
  have hsplit : (records.find? (fun r => !r.blocked &&
        decide (slugOf r.pageUrl = slugOf pageUrl)) = none) ∨
      ∃ r, records.find? (fun r => !r.blocked &&
        decide (slugOf r.pageUrl = slugOf pageUrl)) = some r := by
    cases records.find? (fun r => !r.blocked &&
        decide (slugOf r.pageUrl = slugOf pageUrl))
    · exact Or.inl rfl
    · exact Or.inr ⟨_, rfl⟩
  rcases hsplit with hfind | ⟨r, hfind⟩
  · have hout : recover records fileExists v pageUrl usedAt
        = (.noBackup, v) := by
      unfold recover
      rw [hfind]
    simp only [hout]
    refine ⟨Nat.le_refl _, fun hne => absurd rfl hne, fun _ => by trivial, ?_,
      fun b rem h => RecoverResult.noConfusion h⟩
    intro _ r' hr'
    rw [hfind] at hr'
    cases hr'
  · by_cases hex : fileExists r.backupPath = true
    · by_cases hmem : slugOf pageUrl ∈ v.history.map HistoryEntry.slug
      · have hout : recover records fileExists v pageUrl usedAt
            = (.alreadyRecovered r.backupPath, v) := by
          unfold recover
          rw [hfind]
          simp [hex, hmem]
        simp only [hout]
        refine ⟨Nat.le_refl _, fun hne => absurd rfl hne, fun _ => by trivial, ?_,
          fun b rem h => RecoverResult.noConfusion h⟩
        intro _ r' hr' _
        rw [hfind] at hr'
        injection hr' with h'
        rw [← h']
      · by_cases hq : ((v.freeQuota : Int) - v.usedCount) + v.paidQuota ≤ 0
        · have hout : recover records fileExists v pageUrl usedAt
              = (.quotaExhausted, v) := by
            unfold recover
            rw [hfind]
            simp [hex, hmem, hq]
          simp only [hout]
          exact ⟨Nat.le_refl _, fun hne => absurd rfl hne,
            fun hm => absurd hm hmem, fun hm => absurd hm hmem,
            fun b rem h => RecoverResult.noConfusion h⟩
        · have hout : recover records fileExists v pageUrl usedAt
              = (.ok r.backupPath
                  ((((v.freeQuota : Int) - v.usedCount) + v.paidQuota) - 1),
                 { v with usedCount := v.usedCount + 1,
                          history := v.history ++
                            [⟨slugOf pageUrl, r.backupPath, usedAt⟩] }) := by
            unfold recover
            rw [hfind]
            simp [hex, hmem, hq]
          simp only [hout]
          refine ⟨Nat.le_succ _, fun _ => hmem, fun hm => absurd hm hmem,
            fun hm => absurd hm hmem, ?_⟩
          intro b rem _
          exact ⟨by simp, by trivial⟩
    · have hout : recover records fileExists v pageUrl usedAt
          = (.noBackup, v) := by
        unfold recover
        rw [hfind]
        simp [hex]
      simp only [hout]
      refine ⟨Nat.le_refl _, fun hne => absurd rfl hne, fun _ => by trivial, ?_,
        fun b rem h => RecoverResult.noConfusion h⟩
      intro _ r' hr' hex'
      rw [hfind] at hr'
      injection hr' with h'
      rw [← h'] at hex'
      exact absurd hex' hex


def c8Record : Record :=
  ⟨"a1", "t", "https://lurl.cc/AbCdE", "https://cdn/a.mp4", "video", "lurl",
    "2026-01-01", "videos/t_a1.mp4", none, false⟩

def c8Visitor : Visitor :=
  ⟨1, 3, 0, [⟨"abcde", "videos/t_a1.mp4", "2026-01-02"⟩]⟩

theorem recover_idempotent_witness :
    (recover [c8Record] (fun s => decide (s = "videos/t_a1.mp4")) c8Visitor
      "https://lurl.cc/AbCdE" "t").2 = c8Visitor ∧
    (recover [c8Record] (fun s => decide (s = "videos/t_a1.mp4")) c8Visitor
      "https://lurl.cc/AbCdE" "t").1
      = RecoverResult.alreadyRecovered "videos/t_a1.mp4" := by
  have h := recover_idempotent [c8Record]
    (fun s => decide (s = "videos/t_a1.mp4")) c8Visitor
    "https://lurl.cc/AbCdE" "t"
  refine ⟨h.2.2.1 (by decide), ?_⟩
  exact h.2.2.2.1 (by decide) c8Record (by rfl) (by decide)

end Lurl
